import Mathlib

/-!
Verification of the crates-index build pipeline (`src/rust/src/bin/crates-index.rs`).

The pipeline loads a package table (`crates.csv`) and a version table
(`versions.csv`), ranks packages by downloads, truncates to the top
`MAX_CRATE_SIZE + 1`, resolves versions, collects a token corpus for the
external Minifier, and serializes a JavaScript index file.

Shallow embedding notes:
* `semver::Version` is modelled by its numeric `major.minor.patch` triple with
  lexicographic ordering; no claim exercises pre-release or build metadata.
* Rust's `str::to_lowercase` is modelled by `String.toLower` (char-wise
  `Char.toLower`); they agree on ASCII and on characters without an uppercase
  form, which covers every string in this development.
* Rust's `str::trim` is modelled by dropping `Char.isWhitespace` characters
  from both ends; they agree on ASCII whitespace, which covers every string
  in this development.
* Rust's `String::truncate(100)` guarded by `is_char_boundary(100)` is
  modelled by `takeBytes 100`, which returns `some` exactly when byte offset
  100 is a character boundary at or before the end of the string.
* `std::collections::HashMap` built by `collect` is modelled by an
  association list with last-wins insertion (`hashMapOf`); its run-dependent
  iteration order at serialization time is modelled by an explicit `arrange`
  parameter ranging over permutations of the entries.
* The `Minifier` is external to this binary (its module is not part of the
  sources under verification); it is modelled from the spec as an injected
  collaborator: a record of the consumed interface (§4.5 of the design).
-/

namespace CratesIndex

/-- Models `semver::Version` restricted to the numeric triple. -/
structure Version where
  major : Nat
  minor : Nat
  patch : Nat
deriving DecidableEq

/-- The sentinel version `0.0.0` (`default_version` in the source,
used by serde for the skipped `version` field). -/
def default_version : Version := ⟨0, 0, 0⟩

/-- Boolean total order on versions: lexicographic on (major, minor, patch),
matching `semver::Version`'s `Ord` on normal (pre-release-free) versions. -/
def Version.ble (a b : Version) : Bool :=
  if a.major < b.major then true
  else if b.major < a.major then false
  else if a.minor < b.minor then true
  else if b.minor < a.minor then false
  else a.patch ≤ b.patch

/-- Renders a version the way `semver::Version` serializes: `major.minor.patch`. -/
def Version.toStr (v : Version) : String :=
  toString v.major ++ "." ++ toString v.minor ++ "." ++ toString v.patch

/-- One row of `crates.csv` as deserialized (the `version` field is
`skip_deserializing`, so a row carries only these four columns). -/
structure CrateRow where
  id : Nat
  name : String
  downloads : Nat
  description : Option String
deriving DecidableEq

/-- The `Crate` struct of the source. -/
structure Crate where
  id : Nat
  name : String
  downloads : Nat
  description : Option String
  version : Version
deriving DecidableEq

/-- Deserializing a `Crate` row: serde skips `version` and fills it with
`default_version`. -/
def loadCrate (r : CrateRow) : Crate :=
  ⟨r.id, r.name, r.downloads, r.description, default_version⟩

/-- The `CrateVersion` struct of the source (one row of `versions.csv`). -/
structure CrateVersion where
  crate_id : Nat
  num : Version
deriving DecidableEq

/-- `MAX_CRATE_SIZE` from the source. -/
def MAX_CRATE_SIZE : Nat := 20 * 1000

/-- UTF-8 byte length of a character list (sum of `Char.utf8Size`); this is
what Rust's `str::len` measures. -/
def utf8Len (cs : List Char) : Nat := cs.foldr (fun c n => c.utf8Size + n) 0

/-- Splitting a character list on `_`, with Rust's `str::split` semantics
(adjacent separators and separators at either end produce empty pieces; the
empty string yields one empty piece). -/
def splitUnderscore : List Char → List (List Char)
  | [] => [[]]
  | c :: cs =>
    if c = '_' then [] :: splitUnderscore cs
    else
      match splitUnderscore cs with
      | [] => [[c]]
      | w :: ws => (c :: w) :: ws

/-- `WordCollector::collect_crate_id`: replace `-` by `_` (a one-character
pattern, hence a character-wise replacement), lowercase, split on `_`, keep
pieces whose byte length (Rust `str::len`) is at least 3. -/
def collect_crate_id (value : String) : List String :=
  let id := value.data.map (fun c => if c = '-' then '_' else c)
  ((splitUnderscore (id.map Char.toLower)).map String.mk).filter
    (fun w => 3 ≤ utf8Len w.data)

/-- `takeBytes n cs` returns `some pre` when byte offset `n` is a character
boundary of `cs` at or before its end, where `pre` is the prefix of characters
occupying exactly the first `n` bytes; `none` otherwise.  This is the
combination of Rust's `is_char_boundary(n)` test and `truncate(n)`. -/
def takeBytes : Nat → List Char → Option (List Char)
  | 0, _ => some []
  | _ + 1, [] => none
  | n + 1, c :: cs =>
    if c.utf8Size ≤ n + 1 then (takeBytes (n + 1 - c.utf8Size) cs).map (fun pre => c :: pre)
    else none

/-- Rust's `str::trim` on the character list. -/
def trimChars (cs : List Char) : List Char :=
  ((cs.dropWhile Char.isWhitespace).reverse.dropWhile Char.isWhitespace).reverse

/-- Rust's `str::trim` as a `String` function. -/
def rustTrim (s : String) : String := String.mk (trimChars s.data)

/-- `WordCollector::collect_crate_description`: trim, then truncate to 100
bytes only when byte offset 100 is a character boundary (the source guards
`truncate(100)` with `is_char_boundary(100)` and otherwise skips truncation). -/
def collect_crate_description (value : String) : String :=
  let description := rustTrim value
  match takeBytes 100 description.data with
  | some pre => String.mk pre
  | none => description

/-- The downloads-descending sort of `main`
(`sort_unstable_by(|a, b| b.downloads.cmp(&a.downloads))`; the source's sort
is unstable, so any correct sort for this comparator is a faithful model). -/
def sortCratesByDownloads (crates : List Crate) : List Crate :=
  crates.insertionSort (fun a b => b.downloads ≤ a.downloads)

/-- Sort then `drain(0..=MAX_CRATE_SIZE)`: keep the top `k + 1` crates by
downloads; `drain` panics (modelled as `none`) when fewer than `k + 1`
crates were loaded. -/
def rankTruncate (k : Nat) (crates : List Crate) : Option (List Crate) :=
  let sorted := sortCratesByDownloads crates
  if k + 1 ≤ sorted.length then some (sorted.take (k + 1)) else none

/-- The version-descending sort of `main`
(`sort_unstable_by(|a, b| b.num.cmp(&a.num))`). -/
def sortVersionsDesc (versions : List CrateVersion) : List CrateVersion :=
  versions.insertionSort (fun a b => Version.ble b.num a.num = true)

/-- The closure of the deduplication filter in `main`: given the seen-set it
returns the filter's boolean verdict together with the updated seen-set.  Both
branches return `false` (the source's closure ends in `false` even after
inserting a first-seen id). -/
def dedupPredicate (seen : List Nat) (v : CrateVersion) : Bool × List Nat :=
  if seen.contains v.crate_id then (false, seen)
  else (false, v.crate_id :: seen)

/-- The deduplication step of `main`: filter the version list with
`dedupPredicate` threading the seen-set through. -/
def dedupVersions (versions : List CrateVersion) : List CrateVersion :=
  (versions.foldl
    (fun (acc : List CrateVersion × List Nat) v =>
      let r := dedupPredicate acc.2 v
      (if r.1 then acc.1 ++ [v] else acc.1, r.2))
    (([] : List CrateVersion), ([] : List Nat))).1

/-- The version-resolution part of the `for_each` body in `main`: look the
crate's id up in the (deduplicated) version list and overwrite `version` on a
hit. -/
def resolveCrate (versions : List CrateVersion) (item : Crate) : Crate :=
  match versions.find? (fun v => v.crate_id = item.id) with
  | some v => { item with version := v.num }
  | none => item

/-- The corpus contribution of one crate, in the order of the `for_each` body:
the (trimmed/possibly-truncated) description first when present, then the
identifier sub-tokens. -/
def crateWords (item : Crate) : List String :=
  (match item.description with
   | some d => [collect_crate_description d]
   | none => []) ++ collect_crate_id item.name

/-- The whole `for_each` loop of `main`: resolve each crate's version and
accumulate the corpus, in list order. -/
def processCrates (versions : List CrateVersion) (crates : List Crate) :
    List Crate × List String :=
  crates.foldl
    (fun acc item =>
      let item := resolveCrate versions item
      (acc.1 ++ [item], acc.2 ++ crateWords item))
    (([] : List Crate), ([] : List String))

/-- Modelled from the spec (§4.5): the external Minifier subsystem, whose
implementation is not among the sources under verification.  Only the consumed
interface is modelled: the serializable dictionary, the two substitution
functions, and the whitespace-stripping formatter. -/
structure Minifier where
  get_mapping : List (String × String)
  mapping_minify_crate_id : String → String
  mapping_minify : String → String
  minify_json : String → String

/-- A stub Minifier performing no substitution (the spec's §9 sanctions testing
the pipeline with such a stub). -/
def idMinifier : Minifier := ⟨[], id, id, id⟩

/-- JSON string escaping for the characters that occur in this development. -/
def jsonEscapeChar (c : Char) : List Char :=
  if c = '"' then ['\\', '"']
  else if c = '\\' then ['\\', '\\']
  else [c]

/-- A JSON string literal. -/
def jsonStr (s : String) : String :=
  "\"" ++ String.mk (s.data.flatMap jsonEscapeChar) ++ "\""

/-- serde_json rendering of one crates-map entry: the value pair
`(Option<String>, Version)` becomes a two-element array, `None` becomes
`null`, a `Version` becomes its `major.minor.patch` string. -/
def entryToJson (e : String × Option String × Version) : String :=
  jsonStr e.1 ++ ":" ++ "[" ++
    (match e.2.1 with
     | some d => jsonStr d
     | none => "null") ++ "," ++ jsonStr e.2.2.toStr ++ "]"

/-- serde_json rendering of the crates map, in the given entry order. -/
def jsonObjOfIndex (l : List (String × Option String × Version)) : String :=
  "\x7b" ++ String.intercalate "," (l.map entryToJson) ++ "\x7d"

/-- serde_json rendering of the Minifier dictionary, in the given entry
order. -/
def jsonObjOfMapping (l : List (String × String)) : String :=
  "\x7b" ++ String.intercalate ","
    (l.map (fun p => jsonStr p.1 ++ ":" ++ jsonStr p.2)) ++ "\x7d"

/-- One `HashMap` insertion: replace the value at an existing key, otherwise
append the entry. -/
def insertEntry (m : List (String × Option String × Version))
    (e : String × Option String × Version) : List (String × Option String × Version) :=
  if m.any (fun p => p.1 = e.1) then m.map (fun p => if p.1 = e.1 then e else p)
  else m ++ [e]

/-- `HashMap` built by `collect` from an entry list (later entries with the
same key overwrite earlier ones). -/
def hashMapOf (l : List (String × Option String × Version)) :
    List (String × Option String × Version) :=
  l.foldl insertEntry []

/-- The entry list fed into the crates `HashMap` in
`generate_javascript_crates_index`: minified name mapped to the pair of
minified-or-absent description and resolved version. -/
def cratesMapEntries (m : Minifier) (crates : List Crate) :
    List (String × Option String × Version) :=
  crates.map (fun item =>
    (m.mapping_minify_crate_id item.name,
     (item.description.map (fun value => m.mapping_minify value), item.version)))

/-- `generate_javascript_crates_index`: the `var N=null;` preamble followed by
the whitespace-minified `var crateIndex=...;` literal.  `arrange` models the
iteration order of the backing `HashMap` at serialization time. -/
def generate_javascript_crates_index (m : Minifier)
    (arrange : List (String × Option String × Version) → List (String × Option String × Version))
    (crates : List Crate) : String :=
  let contents := "var N=null;"
  let crates_map := arrange (hashMapOf (cratesMapEntries m crates))
  let crate_index := "var crateIndex=" ++ jsonObjOfIndex crates_map ++ ";"
  contents ++ m.minify_json crate_index

/-- The whole pipeline of `main` after CSV loading, parametrized by the
Minifier constructor `mk` (external code), the population bound `k`
(`MAX_CRATE_SIZE` in the source), and the `HashMap` iteration order `arrange`.
`none` models the `drain` panic on insufficient population, in which case no
output artifact is produced. -/
def runPipeline (mk : List String → Minifier) (k : Nat)
    (rows : List CrateRow) (versionRows : List CrateVersion)
    (arrange : List (String × Option String × Version) → List (String × Option String × Version)) :
    Option String :=
  match rankTruncate k (rows.map loadCrate) with
  | none => none
  | some ranked =>
    let versions := dedupVersions (sortVersionsDesc versionRows)
    let p := processCrates versions ranked
    let minifier := mk p.2
    let contents := "var mapping=" ++ jsonObjOfMapping minifier.get_mapping ++ ";"
    some (contents ++ generate_javascript_crates_index minifier arrange p.1)

/-- The `HashMap` of ranked-and-processed crates that the serializer iterates,
when the pipeline does not panic. -/
def pipelineIndexMap (mk : List String → Minifier) (k : Nat)
    (rows : List CrateRow) (versionRows : List CrateVersion) :
    Option (List (String × Option String × Version)) :=
  match rankTruncate k (rows.map loadCrate) with
  | none => none
  | some ranked =>
    let versions := dedupVersions (sortVersionsDesc versionRows)
    let p := processCrates versions ranked
    some (hashMapOf (cratesMapEntries (mk p.2) p.1))

/-! ### Helper lemmas -/

theorem resolveCrate_id (vs : List CrateVersion) (c : Crate) :
    (resolveCrate vs c).id = c.id := by
  unfold resolveCrate
  cases vs.find? (fun v => v.crate_id = c.id) <;> rfl

theorem resolveCrate_name (vs : List CrateVersion) (c : Crate) :
    (resolveCrate vs c).name = c.name := by
  unfold resolveCrate
  cases vs.find? (fun v => v.crate_id = c.id) <;> rfl

theorem resolveCrate_downloads (vs : List CrateVersion) (c : Crate) :
    (resolveCrate vs c).downloads = c.downloads := by
  unfold resolveCrate
  cases vs.find? (fun v => v.crate_id = c.id) <;> rfl

theorem resolveCrate_description (vs : List CrateVersion) (c : Crate) :
    (resolveCrate vs c).description = c.description := by
  unfold resolveCrate
  cases vs.find? (fun v => v.crate_id = c.id) <;> rfl

theorem resolveCrate_nil (c : Crate) : resolveCrate [] c = c := rfl

theorem processCrates_go (versions : List CrateVersion) :
    ∀ (crates : List Crate) (acc : List Crate × List String),
      crates.foldl
        (fun acc item =>
          let item := resolveCrate versions item
          (acc.1 ++ [item], acc.2 ++ crateWords item)) acc
      = (acc.1 ++ crates.map (resolveCrate versions),
         acc.2 ++ crates.flatMap (fun c => crateWords (resolveCrate versions c)))
  | [], acc => by simp
  | c :: cs, acc => by
    rw [List.foldl_cons, processCrates_go versions cs]
    simp

theorem processCrates_eq (versions : List CrateVersion) (crates : List Crate) :
    processCrates versions crates
      = (crates.map (resolveCrate versions),
         crates.flatMap (fun c => crateWords (resolveCrate versions c))) := by
  unfold processCrates
  rw [processCrates_go]
  simp

theorem dedupVersions_go :
    ∀ (vs : List CrateVersion) (kept : List CrateVersion) (seen : List Nat),
      (vs.foldl
        (fun (acc : List CrateVersion × List Nat) v =>
          let r := dedupPredicate acc.2 v
          (if r.1 then acc.1 ++ [v] else acc.1, r.2)) (kept, seen)).1 = kept
  | [], _, _ => rfl
  | v :: vs, kept, seen => by
    by_cases h : seen.contains v.crate_id <;>
      simp only [List.foldl_cons, dedupPredicate, h, if_true, if_false, Bool.false_eq_true] <;>
      exact dedupVersions_go vs kept _

theorem dedupVersions_eq_nil (vs : List CrateVersion) : dedupVersions vs = [] := by
  unfold dedupVersions
  exact dedupVersions_go vs [] []

theorem takeBytes_utf8Len :
    ∀ (n : Nat) (cs pre : List Char), takeBytes n cs = some pre → utf8Len pre = n
  | 0, _, pre, h => by
    simp only [takeBytes, Option.some.injEq] at h
    subst h
    rfl
  | n + 1, [], pre, h => by simp [takeBytes] at h
  | n + 1, c :: cs, pre, h => by
    simp only [takeBytes] at h
    split at h
    · cases h2 : takeBytes (n + 1 - c.utf8Size) cs with
      | none => rw [h2] at h; simp at h
      | some rest =>
        rw [h2] at h
        simp only [Option.map_some', Option.some.injEq] at h
        subst h
        have hr := takeBytes_utf8Len (n + 1 - c.utf8Size) cs rest h2
        have hle : c.utf8Size ≤ n + 1 := by omega
        simp only [utf8Len, List.foldr_cons] at *
        omega
    · exact Option.noConfusion h

theorem takeBytes_append :
    ∀ (n : Nat) (cs pre : List Char), takeBytes n cs = some pre → ∃ t, pre ++ t = cs
  | 0, cs, pre, h => by
    simp only [takeBytes, Option.some.injEq] at h
    subst h
    exact ⟨cs, rfl⟩
  | n + 1, [], pre, h => by simp [takeBytes] at h
  | n + 1, c :: cs, pre, h => by
    simp only [takeBytes] at h
    split at h
    · cases h2 : takeBytes (n + 1 - c.utf8Size) cs with
      | none => rw [h2] at h; simp at h
      | some rest =>
        rw [h2] at h
        simp only [Option.map_some', Option.some.injEq] at h
        subst h
        obtain ⟨t, ht⟩ := takeBytes_append (n + 1 - c.utf8Size) cs rest h2
        exact ⟨t, by simp [ht]⟩
    · exact Option.noConfusion h

theorem insertEntry_keys (m : List (String × Option String × Version))
    (e : String × Option String × Version) :
    (insertEntry m e).map Prod.fst =
      if m.any (fun p => p.1 = e.1) then m.map Prod.fst else m.map Prod.fst ++ [e.1] := by
  unfold insertEntry
  split
  · rw [List.map_map]
    apply List.map_congr_left
    intro p _
    by_cases hp : p.1 = e.1 <;> simp [Function.comp, hp]
  · simp

theorem hashMapOf_go_nodup :
    ∀ (l acc : List (String × Option String × Version)),
      (acc.map Prod.fst).Nodup → ((l.foldl insertEntry acc).map Prod.fst).Nodup
  | [], _, h => h
  | e :: l, acc, h => by
    rw [List.foldl_cons]
    apply hashMapOf_go_nodup l
    rw [insertEntry_keys]
    split
    · exact h
    · next hany =>
      rw [List.nodup_append]
      refine ⟨h, List.nodup_singleton _, ?_⟩
      intro x hx hx1
      obtain ⟨p, hp, hpx⟩ := List.mem_map.mp hx
      rw [List.mem_singleton] at hx1
      exact hany (List.any_eq_true.mpr ⟨p, hp, decide_eq_true (by rw [hpx, hx1])⟩)

theorem hashMapOf_keys_nodup (l : List (String × Option String × Version)) :
    ((hashMapOf l).map Prod.fst).Nodup :=
  hashMapOf_go_nodup l [] (by simp)

theorem hashMapOf_go_eq :
    ∀ (l acc : List (String × Option String × Version)),
      ((acc ++ l).map Prod.fst).Nodup → l.foldl insertEntry acc = acc ++ l
  | [], acc, _ => by simp
  | e :: l, acc, h => by
    rw [List.foldl_cons]
    have hins : insertEntry acc e = acc ++ [e] := by
      unfold insertEntry
      rw [if_neg]
      intro hany
      obtain ⟨p, hp, hpe⟩ := List.any_eq_true.mp hany
      rw [List.map_append, List.nodup_append] at h
      obtain ⟨_, _, hdisj⟩ := h
      exact hdisj (List.mem_map.mpr ⟨p, hp, of_decide_eq_true hpe⟩) (by simp)
    rw [hins, hashMapOf_go_eq l (acc ++ [e]) (by simpa using h)]
    simp

theorem hashMapOf_eq_self (l : List (String × Option String × Version))
    (h : (l.map Prod.fst).Nodup) : hashMapOf l = l := by
  unfold hashMapOf
  simpa using hashMapOf_go_eq l [] (by simpa using h)

theorem sortCratesByDownloads_length (crates : List Crate) :
    (sortCratesByDownloads crates).length = crates.length := by
  unfold sortCratesByDownloads
  exact List.length_insertionSort _ _

theorem sortCratesByDownloads_perm (crates : List Crate) :
    (sortCratesByDownloads crates).Perm crates :=
  List.perm_insertionSort _ _

theorem rankTruncate_eq (k : Nat) (crates : List Crate) (h : k + 1 ≤ crates.length) :
    rankTruncate k crates = some ((sortCratesByDownloads crates).take (k + 1)) := by
  unfold rankTruncate
  rw [if_pos (by rw [sortCratesByDownloads_length]; exact h)]

theorem rankTruncate_none (k : Nat) (crates : List Crate) (h : crates.length < k + 1) :
    rankTruncate k crates = none := by
  unfold rankTruncate
  rw [if_neg (by rw [sortCratesByDownloads_length]; omega)]

theorem rankTruncate_length (k : Nat) (crates ranked : List Crate)
    (h : rankTruncate k crates = some ranked) : ranked.length = k + 1 := by
  rcases Nat.lt_or_ge crates.length (k + 1) with hlt | hge
  · rw [rankTruncate_none k crates hlt] at h
    exact Option.noConfusion h
  · rw [rankTruncate_eq k crates hge] at h
    injection h with h
    subst h
    rw [List.length_take, sortCratesByDownloads_length]
    omega

theorem rankTruncate_sub (k : Nat) (crates ranked : List Crate)
    (h : rankTruncate k crates = some ranked) :
    ranked.Sublist (sortCratesByDownloads crates) := by
  rcases Nat.lt_or_ge crates.length (k + 1) with hlt | hge
  · rw [rankTruncate_none k crates hlt] at h
    exact Option.noConfusion h
  · rw [rankTruncate_eq k crates hge] at h
    injection h with h
    subst h
    exact List.take_sublist _ _

theorem rankTruncate_mem (k : Nat) (crates ranked : List Crate)
    (h : rankTruncate k crates = some ranked) : ∀ c ∈ ranked, c ∈ crates := by
  intro c hc
  have h1 : c ∈ sortCratesByDownloads crates :=
    (rankTruncate_sub k crates ranked h).subset hc
  exact (sortCratesByDownloads_perm crates).mem_iff.mp h1

theorem cratesMapEntries_keys (m : Minifier) (l : List Crate) :
    (cratesMapEntries m l).map Prod.fst
      = l.map (fun c => m.mapping_minify_crate_id c.name) := by
  simp [cratesMapEntries, List.map_map, Function.comp]

theorem crateWords_resolve (vs : List CrateVersion) (c : Crate) :
    crateWords (resolveCrate vs c)
      = (match c.description with
         | some d => [collect_crate_description d]
         | none => []) ++ collect_crate_id c.name := by
  unfold crateWords
  rw [resolveCrate_description, resolveCrate_name]

/-! ### Claims -/

/-- C1: the claim states that a package whose version records are
{1.0.0, 2.0.0, 1.5.0} resolves to 2.0.0 (the highest by semantic-version
ordering).  The code does not do this: its deduplication filter drops every
version record, so the package keeps the sentinel 0.0.0 even though 2.0.0 is
the greatest record of the table.  This theorem evaluates the embedded code at
that failing input. -/
theorem claim_c1_resolution_diverges :
    Version.ble ⟨1, 0, 0⟩ ⟨2, 0, 0⟩ = true ∧
    Version.ble ⟨1, 5, 0⟩ ⟨2, 0, 0⟩ = true ∧
    (processCrates
        (dedupVersions (sortVersionsDesc
          [⟨1, ⟨1, 0, 0⟩⟩, ⟨1, ⟨2, 0, 0⟩⟩, ⟨1, ⟨1, 5, 0⟩⟩]))
        [loadCrate ⟨1, "aaa", 5, none⟩]).1.map Crate.version = [default_version] ∧
    default_version ≠ ⟨2, 0, 0⟩ :=
  ⟨by decide, by decide, by decide, by decide⟩

/-- C2: for every input version table the deduplication filter rejects every
record, so the deduplicated version collection is empty, and consequently
every package of the ranked population keeps the sentinel version 0.0.0, which
is also the version carried by its output map entry. -/
theorem claim_c2_dedup_always_empty (vs : List CrateVersion) (k : Nat)
    (rows : List CrateRow) (ranked : List Crate) (m : Minifier)
    (h : rankTruncate k (rows.map loadCrate) = some ranked) :
    dedupVersions vs = [] ∧
      (∀ c ∈ (processCrates (dedupVersions (sortVersionsDesc vs)) ranked).1,
        c.version = default_version) ∧
      (∀ e ∈ cratesMapEntries m
          (processCrates (dedupVersions (sortVersionsDesc vs)) ranked).1,
        e.2.2 = default_version) := by
  have hmem : ∀ c ∈ (processCrates (dedupVersions (sortVersionsDesc vs)) ranked).1,
      c.version = default_version := by
    intro c hc
    rw [dedupVersions_eq_nil, processCrates_eq] at hc
    simp only [List.mem_map] at hc
    obtain ⟨c0, hc0, hcc⟩ := hc
    rw [resolveCrate_nil] at hcc
    subst hcc
    have hc1 := rankTruncate_mem k _ ranked h c0 hc0
    obtain ⟨r, _, hr⟩ := List.mem_map.mp hc1
    rw [← hr]
    rfl
  refine ⟨dedupVersions_eq_nil vs, hmem, ?_⟩
  intro e he
  unfold cratesMapEntries at he
  obtain ⟨c, hc, hce⟩ := List.mem_map.mp he
  rw [← hce]
  exact hmem c hc

/-- Witness for C2 at a concrete input: one crate, one version record. -/
theorem claim_c2_witness :
    rankTruncate 0 (([⟨1, "aaa", 5, none⟩] : List CrateRow).map loadCrate)
        = some [loadCrate ⟨1, "aaa", 5, none⟩] ∧
      (dedupVersions [⟨1, ⟨1, 0, 0⟩⟩] = [] ∧
        (∀ c ∈ (processCrates
            (dedupVersions (sortVersionsDesc [⟨1, ⟨1, 0, 0⟩⟩]))
            [loadCrate ⟨1, "aaa", 5, none⟩]).1, c.version = default_version) ∧
        (∀ e ∈ cratesMapEntries idMinifier
            (processCrates (dedupVersions (sortVersionsDesc [⟨1, ⟨1, 0, 0⟩⟩]))
              [loadCrate ⟨1, "aaa", 5, none⟩]).1,
          e.2.2 = default_version)) :=
  ⟨by decide,
   claim_c2_dedup_always_empty [⟨1, ⟨1, 0, 0⟩⟩] 0 [⟨1, "aaa", 5, none⟩]
     [loadCrate ⟨1, "aaa", 5, none⟩] idMinifier (by decide)⟩

/-- C6: when fewer than `k + 1` packages are loaded, the truncation step
panics (no clamping) and the pipeline produces no output artifact. -/
theorem claim_c6_insufficient_population_aborts (mk : List String → Minifier)
    (k : Nat) (rows : List CrateRow) (versionRows : List CrateVersion)
    (arrange : List (String × Option String × Version) → List (String × Option String × Version))
    (h : rows.length < k + 1) :
    runPipeline mk k rows versionRows arrange = none := by
  unfold runPipeline
  rw [rankTruncate_none k _ (by rw [List.length_map]; exact h)]

/-- Witness for C6: one loaded package with `k = 1` aborts the run. -/
theorem claim_c6_witness :
    ([⟨1, "aaa", 2, none⟩] : List CrateRow).length < 1 + 1 ∧
      runPipeline (fun _ => idMinifier) 1 [⟨1, "aaa", 2, none⟩] [] id = none :=
  ⟨by decide,
   claim_c6_insufficient_population_aborts (fun _ => idMinifier) 1
     [⟨1, "aaa", 2, none⟩] [] id (by decide)⟩

/-- C7: token extraction splits on hyphen and underscore as equivalent
separators, case-folds, and keeps pieces of length at least 3, in order:
`serde_json` yields exactly `["serde", "json"]`, `a-b` yields no tokens, and
the mixed-case hyphenated `Serde-Json` also yields `["serde", "json"]`. -/
theorem claim_c7_token_extraction :
    collect_crate_id "serde_json" = ["serde", "json"] ∧
    collect_crate_id "a-b" = [] ∧
    collect_crate_id "Serde-Json" = ["serde", "json"] :=
  ⟨by decide, by decide, by decide⟩

/-- C3 counterexample: the serialized output is not byte-identical across
runs.  The crates map is a `HashMap` whose iteration order at serialization
time is not fixed by the input; at a concrete two-crate input, two valid
iteration orders (the insertion order and its reverse, a permutation of the
same entries) produce different bytes. -/
theorem claim_c3_counterexample :
    pipelineIndexMap (fun _ => idMinifier) 1
        [⟨1, "aaa", 2, none⟩, ⟨2, "bbb", 1, none⟩] []
      = some (hashMapOf (cratesMapEntries idMinifier
          [loadCrate ⟨1, "aaa", 2, none⟩, loadCrate ⟨2, "bbb", 1, none⟩])) ∧
    (List.reverse (hashMapOf (cratesMapEntries idMinifier
        [loadCrate ⟨1, "aaa", 2, none⟩, loadCrate ⟨2, "bbb", 1, none⟩]))).Perm
      (hashMapOf (cratesMapEntries idMinifier
        [loadCrate ⟨1, "aaa", 2, none⟩, loadCrate ⟨2, "bbb", 1, none⟩])) ∧
    runPipeline (fun _ => idMinifier) 1
        [⟨1, "aaa", 2, none⟩, ⟨2, "bbb", 1, none⟩] [] id
      ≠ runPipeline (fun _ => idMinifier) 1
          [⟨1, "aaa", 2, none⟩, ⟨2, "bbb", 1, none⟩] [] List.reverse :=
  ⟨by decide, by decide, by decide⟩

/-- C3 amended: the pipeline is deterministic up to the iteration order of the
crates `HashMap`: any two runs serialize permutations of the same entry set,
and two runs whose hash maps iterate identically produce byte-identical
output. -/
theorem claim_c3_determinism_amended (mk : List String → Minifier) (k : Nat)
    (rows : List CrateRow) (versionRows : List CrateVersion)
    (a1 a2 : List (String × Option String × Version) → List (String × Option String × Version))
    (E : List (String × Option String × Version))
    (_hE : pipelineIndexMap mk k rows versionRows = some E)
    (h1 : (a1 E).Perm E) (h2 : (a2 E).Perm E) :
    (a1 E).Perm (a2 E) ∧
      ((∀ l, a1 l = a2 l) →
        runPipeline mk k rows versionRows a1 = runPipeline mk k rows versionRows a2) := by
  refine ⟨h1.trans h2.symm, ?_⟩
  intro hfun
  unfold runPipeline
  cases rankTruncate k (rows.map loadCrate) with
  | none => rfl
  | some ranked => simp only [generate_javascript_crates_index, hfun]

/-- Witness for C3 amended, at the two-crate input with both orders equal to
the insertion order. -/
theorem claim_c3_amended_witness :
    (id (hashMapOf (cratesMapEntries idMinifier
        [loadCrate ⟨1, "aaa", 2, none⟩, loadCrate ⟨2, "bbb", 1, none⟩]))).Perm
      (id (hashMapOf (cratesMapEntries idMinifier
        [loadCrate ⟨1, "aaa", 2, none⟩, loadCrate ⟨2, "bbb", 1, none⟩]))) ∧
    ((∀ l : List (String × Option String × Version), id l = id l) →
      runPipeline (fun _ => idMinifier) 1
          [⟨1, "aaa", 2, none⟩, ⟨2, "bbb", 1, none⟩] [] id
        = runPipeline (fun _ => idMinifier) 1
            [⟨1, "aaa", 2, none⟩, ⟨2, "bbb", 1, none⟩] [] id) :=
  claim_c3_determinism_amended (fun _ => idMinifier) 1
    [⟨1, "aaa", 2, none⟩, ⟨2, "bbb", 1, none⟩] [] id id
    (hashMapOf (cratesMapEntries idMinifier
      [loadCrate ⟨1, "aaa", 2, none⟩, loadCrate ⟨2, "bbb", 1, none⟩]))
    (by decide) (by decide) (by decide)

set_option maxRecDepth 10000 in
/-- C4 counterexample: a trimmed description of 99 ASCII characters followed
by `é` and `x` occupies 102 bytes and has no character boundary at byte 100,
so the code skips truncation entirely and the corpus entry keeps all 101
characters (102 bytes) — the claim that every description corpus entry has
length at most 100 fails. -/
theorem claim_c4_counterexample :
    collect_crate_description (String.mk (List.replicate 99 'a' ++ ['é', 'x']))
        = String.mk (List.replicate 99 'a' ++ ['é', 'x']) ∧
      ¬((collect_crate_description
          (String.mk (List.replicate 99 'a' ++ ['é', 'x']))).length ≤ 100) ∧
      ¬((collect_crate_description
          (String.mk (List.replicate 99 'a' ++ ['é', 'x']))).utf8ByteSize ≤ 100) :=
  ⟨by decide, by decide, by decide⟩

/-- C4 amended: the corpus entry for a present description is the trimmed
description, truncated to exactly the first 100 bytes (never splitting a
character, since whole characters are taken) when byte offset 100 falls on a
character boundary of the trimmed text, and left untruncated otherwise; in
particular a 150-ASCII-character description yields exactly 100 characters. -/
theorem claim_c4_truncation_amended (d : String) :
    (∀ pre, takeBytes 100 (rustTrim d).data = some pre →
        collect_crate_description d = String.mk pre ∧ utf8Len pre = 100 ∧
          ∃ t, pre ++ t = (rustTrim d).data) ∧
      (takeBytes 100 (rustTrim d).data = none →
        collect_crate_description d = rustTrim d) := by
  constructor
  · intro pre hpre
    refine ⟨?_, takeBytes_utf8Len _ _ _ hpre, takeBytes_append _ _ _ hpre⟩
    show (match takeBytes 100 (rustTrim d).data with
          | some p => String.mk p
          | none => rustTrim d) = String.mk pre
    rw [hpre]
  · intro hnone
    show (match takeBytes 100 (rustTrim d).data with
          | some p => String.mk p
          | none => rustTrim d) = rustTrim d
    rw [hnone]

set_option maxRecDepth 10000 in
/-- Witness for C4 amended: the claim's 150-ASCII-character description is
truncated to exactly the first 100 characters. -/
theorem claim_c4_witness :
    takeBytes 100 (rustTrim (String.mk (List.replicate 150 'a'))).data
        = some (List.replicate 100 'a') ∧
      (collect_crate_description (String.mk (List.replicate 150 'a'))
          = String.mk (List.replicate 100 'a') ∧
        utf8Len (List.replicate 100 'a') = 100 ∧
        ∃ t, List.replicate 100 'a' ++ t
          = (rustTrim (String.mk (List.replicate 150 'a'))).data) :=
  ⟨by decide,
   (claim_c4_truncation_amended (String.mk (List.replicate 150 'a'))).1
     (List.replicate 100 'a') (by decide)⟩

/-- C8 counterexample: for a crate named `serde_json` with description `xyz`,
the corpus is `["xyz", "serde", "json"]` — the truncated-description entry
comes first, not after the identifier sub-tokens as claimed. -/
theorem claim_c8_counterexample :
    (processCrates [] [loadCrate ⟨1, "serde_json", 5, some "xyz"⟩]).2
        = ["xyz", "serde", "json"] ∧
      (processCrates [] [loadCrate ⟨1, "serde_json", 5, some "xyz"⟩]).2
        ≠ ["serde", "json", "xyz"] :=
  ⟨by decide, by decide⟩

/-- C8 amended: within each retained package's corpus contribution the
truncated-description entry (when present) precedes the identifier sub-tokens,
and the per-package groups appear in the order of the processed package
list. -/
theorem claim_c8_corpus_order (vs : List CrateVersion) (crates : List Crate) :
    (processCrates vs crates).2
      = crates.flatMap (fun c =>
          (match c.description with
           | some d => [collect_crate_description d]
           | none => []) ++ collect_crate_id c.name) := by
  rw [processCrates_eq]
  have hfun : (fun c => crateWords (resolveCrate vs c))
      = fun c => (match c.description with
                  | some d => [collect_crate_description d]
                  | none => []) ++ collect_crate_id c.name :=
    funext (crateWords_resolve vs)
  rw [hfun]

/-- C9: the length-at-least-3 filter on identifier sub-tokens measures UTF-8
byte length, not character count: a piece produced by the separator split is
kept in the corpus exactly when its UTF-8 encoding is at least 3 bytes. -/
theorem claim_c9_byte_length_filter (v w : String)
    (h : w.data ∈ splitUnderscore
        ((v.data.map (fun c => if c = '-' then '_' else c)).map Char.toLower)) :
    w ∈ collect_crate_id v ↔ 3 ≤ utf8Len w.data := by
  simp only [collect_crate_id]
  constructor
  · intro hw
    exact of_decide_eq_true (List.mem_filter.mp hw).2
  · intro hw
    exact List.mem_filter.mpr
      ⟨List.mem_map.mpr ⟨w.data, h, rfl⟩, decide_eq_true hw⟩

/-- Witness for C9: the two-character token `éé` (4 UTF-8 bytes) survives the
filter even though it has fewer than 3 characters. -/
theorem claim_c9_witness :
    ("éé" ∈ collect_crate_id "x_éé") ∧ ("éé" : String).length < 3 :=
  ⟨(claim_c9_byte_length_filter "x_éé" "éé" (by decide)).mpr (by decide),
   by decide⟩

/-- C10: the collection/resolution phase never mutates a package's `id`,
`name`, `downloads` or `description` (only `version` is overwritten), and the
description stored in each output index entry is the minified original
description — not the trimmed/truncated copy made for the corpus. -/
theorem claim_c10_frame (vs : List CrateVersion) (crates : List Crate)
    (m : Minifier) :
    (processCrates vs crates).1.map (fun c => (c.id, c.name, c.downloads, c.description))
        = crates.map (fun c => (c.id, c.name, c.downloads, c.description)) ∧
      (cratesMapEntries m (processCrates vs crates).1).map (fun e => e.2.1)
        = crates.map (fun c => c.description.map (fun value => m.mapping_minify value)) := by
  rw [processCrates_eq]
  constructor
  · rw [List.map_map]
    apply List.map_congr_left
    intro c _
    simp [Function.comp, resolveCrate_id, resolveCrate_name, resolveCrate_downloads,
      resolveCrate_description]
  · unfold cratesMapEntries
    rw [List.map_map, List.map_map]
    apply List.map_congr_left
    intro c _
    simp [Function.comp, resolveCrate_description]

/-- C5 counterexample: the claim conditions only on at least `K + 1` loaded
packages, but with two loaded packages sharing the name `aaa` (the spec
guarantees uniqueness of `id` only) the two entries collide on one `HashMap`
key, so the output mapping holds a single entry, not `K + 1 = 2`. -/
theorem claim_c5_counterexample :
    (([⟨1, "aaa", 2, none⟩, ⟨2, "aaa", 1, none⟩] : List CrateRow).length = 1 + 1) ∧
    pipelineIndexMap (fun _ => idMinifier) 1
        [⟨1, "aaa", 2, none⟩, ⟨2, "aaa", 1, none⟩] []
      = some [("aaa", (none : Option String), default_version)] ∧
    ([("aaa", (none : Option String), default_version)]
        : List (String × Option String × Version)).length ≠ 1 + 1 :=
  ⟨by decide, by decide, by decide⟩

/-- C5 amended: given at least `k + 1` loaded packages, every key in the
output package mapping is distinct for all runs, and the mapping holds
exactly `k + 1` entries (one per retained package) provided the retained
packages' minified identifiers are pairwise distinct — which holds when the
package names are pairwise distinct and the minified-identifier substitution
is injective (the spec's round-trip property for the external Minifier);
with colliding minified names, later entries overwrite earlier ones and the
count drops below `k + 1`. -/
theorem claim_c5_size_and_uniqueness (mk : List String → Minifier) (k : Nat)
    (rows : List CrateRow) (versionRows : List CrateVersion)
    (h1 : k + 1 ≤ rows.length)
    (h2 : ∀ ws, Function.Injective (mk ws).mapping_minify_crate_id)
    (h3 : (rows.map CrateRow.name).Nodup) :
    ∃ mp, pipelineIndexMap mk k rows versionRows = some mp ∧
      mp.length = k + 1 ∧ (mp.map Prod.fst).Nodup := by
  have hlen : k + 1 ≤ (rows.map loadCrate).length := by
    rw [List.length_map]; exact h1
  have hrank := rankTruncate_eq k (rows.map loadCrate) hlen
  set T := (sortCratesByDownloads (rows.map loadCrate)).take (k + 1) with hT
  set V := dedupVersions (sortVersionsDesc versionRows) with hV
  have hpim : pipelineIndexMap mk k rows versionRows
      = some (hashMapOf (cratesMapEntries (mk (processCrates V T).2)
          (processCrates V T).1)) := by
    unfold pipelineIndexMap
    rw [hrank]
  have hTlen : T.length = k + 1 := by
    rw [hT, List.length_take, sortCratesByDownloads_length, List.length_map]
    omega
  have hTnames : (T.map Crate.name).Nodup := by
    have hperm : ((sortCratesByDownloads (rows.map loadCrate)).map Crate.name).Perm
        (rows.map CrateRow.name) := by
      have hp := (sortCratesByDownloads_perm (rows.map loadCrate)).map Crate.name
      rwa [List.map_map] at hp
    have hsorted : ((sortCratesByDownloads (rows.map loadCrate)).map Crate.name).Nodup :=
      hperm.nodup_iff.mpr h3
    exact ((List.take_sublist (k + 1) _).map Crate.name).nodup hsorted
  have hfst : (processCrates V T).1 = T.map (resolveCrate V) := by
    rw [processCrates_eq]
  have hkeys : ((cratesMapEntries (mk (processCrates V T).2)
      (processCrates V T).1).map Prod.fst).Nodup := by
    rw [cratesMapEntries_keys, hfst, List.map_map]
    have heq : T.map ((fun c => (mk (processCrates V T).2).mapping_minify_crate_id c.name)
        ∘ resolveCrate V)
        = List.map (mk (processCrates V T).2).mapping_minify_crate_id
            (T.map Crate.name) := by
      rw [List.map_map]
      apply List.map_congr_left
      intro c _
      simp [Function.comp, resolveCrate_name]
    rw [heq]
    exact List.Nodup.map (h2 _) hTnames
  refine ⟨_, hpim, ?_, hashMapOf_keys_nodup _⟩
  rw [hashMapOf_eq_self _ hkeys]
  unfold cratesMapEntries
  rw [List.length_map, hfst, List.length_map, hTlen]

/-- Witness for C5: two loaded packages with distinct names, `k = 1`, and the
identity substitution give a two-entry mapping with distinct keys. -/
theorem claim_c5_witness :
    1 + 1 ≤ ([⟨1, "aaa", 2, none⟩, ⟨2, "bbb", 1, none⟩] : List CrateRow).length ∧
    (([⟨1, "aaa", 2, none⟩, ⟨2, "bbb", 1, none⟩] : List CrateRow).map CrateRow.name).Nodup ∧
    ∃ mp, pipelineIndexMap (fun _ => idMinifier) 1
        [⟨1, "aaa", 2, none⟩, ⟨2, "bbb", 1, none⟩] [] = some mp ∧
      mp.length = 1 + 1 ∧ (mp.map Prod.fst).Nodup :=
  ⟨by decide, by decide,
   claim_c5_size_and_uniqueness (fun _ => idMinifier) 1
     [⟨1, "aaa", 2, none⟩, ⟨2, "bbb", 1, none⟩] [] (by decide)
     (fun _ => Function.injective_id) (by decide)⟩

end CratesIndex
